import Mathlib

/-!
Verification of the note-collection model of `src/src/App.tsx`
(online_notepad).  The React component's state and its mutation/query
functions are shallowly embedded: the `useState` cells that the claims
concern become the fields of `AppState`, and each handler becomes a pure
state transformer.  UI-only cells (`statusMessage`, `isDarkMode`,
`newTag`, `lastSaved`) and the rendering code are omitted: no claim
mentions them and the handlers never read them.  `Date` values are
modelled as `Nat` timestamps supplied as an explicit `now` argument.
TypeScript optional booleans (`favorite?`, `isLocked?`, `isArchived?`)
are modelled as `Bool`, since the code only ever consumes them through
truthiness (`!x`, `? :`), under which `undefined` and `false` coincide;
`password?`, `version?` and `history?` keep their `Option` since the
code distinguishes `undefined` there (`!note.isLocked ? password :
undefined`, `note.version || 1`, `note.history || []`).
-/

namespace Notepad

/-- The `format` field of a note: three single-element boolean arrays
(`bold: boolean[]` etc., App.tsx lines 12-16). -/
structure NoteFormat where
  bold : List Bool
  italic : List Bool
  underline : List Bool
deriving Repr, DecidableEq

/-- The `Note` interface of App.tsx (lines 5-22). -/
structure Note where
  id : String
  title : String
  content : String
  lastModified : Nat
  favorite : Bool
  tags : List String
  format : NoteFormat
  isLocked : Bool
  password : Option String
  isArchived : Bool
  version : Option Nat
  history : Option (List String)
deriving Repr, DecidableEq

instance : Inhabited Note :=
  ⟨{ id := "", title := "", content := "", lastModified := 0,
     favorite := false, tags := [], format := ⟨[false], [false], [false]⟩,
     isLocked := false, password := none, isArchived := false,
     version := none, history := none }⟩

/-- The `sortOption` state: `'modified' | 'title' | 'created' | 'archived'`. -/
inductive SortOption where
  | modified
  | title
  | created
  | archived
deriving Repr, DecidableEq

/-- The `sortDirection` state: `'asc' | 'desc'`. -/
inductive SortDirection where
  | asc
  | desc
deriving Repr, DecidableEq

/-- The component state the claims concern: the `useState` cells
`notes`, `activeNoteId`, `searchQuery`, `selectedTags`, `sortOption`,
`sortDirection`, `password` (the candidate-password input field),
`undoStack`, `redoStack`. -/
structure AppState where
  notes : List Note
  activeNoteId : String
  searchQuery : String
  selectedTags : List String
  sortOption : SortOption
  sortDirection : SortDirection
  password : String
  undoStack : List String
  redoStack : List String
deriving Repr, DecidableEq

/-- JavaScript `note.version || 1`: `undefined` and `0` are falsy. -/
def jsOrNat (v : Option Nat) : Nat :=
  match v with
  | some n => if n = 0 then 1 else n
  | none => 1

/-- The characters before the first `'\n'`: `content.split('\n')[0]`. -/
def firstLine : List Char → List Char
  | [] => []
  | c :: rest => if c = '\n' then [] else c :: firstLine rest

/-- JavaScript `content.split('\n')[0].slice(0, 50) || 'Untitled'`
(App.tsx line 235): first line, capped at 50 characters, empty string
falls back to `"Untitled"`. -/
def jsTitle (content : String) : String :=
  let sliced := String.mk ((firstLine content.data).take 50)
  if sliced = "" then "Untitled" else sliced

/-- JavaScript `toLowerCase()`, character by character; the code and the
claims only exercise it on ASCII. -/
def jsToLower (s : String) : String :=
  String.mk (s.data.map Char.toLower)

/-- `activeNote = notes.find(note => note.id === activeNoteId) || notes[0]`
(App.tsx line 117), parameterised by the list and the id. -/
def activeNoteOf (notes : List Note) (aid : String) : Note :=
  match notes.find? (fun n => n.id == aid) with
  | some n => n
  | none => notes.headD default

/-- The active note of a state (App.tsx line 117). -/
def activeNote (s : AppState) : Note :=
  activeNoteOf s.notes s.activeNoteId

/-- The per-note effect of `updateNote` (App.tsx lines 232-239): replace
the content, recompute the title, stamp `lastModified`, bump `version`
(`(note.version || 1) + 1`) and append the pre-edit content to
`history` (`[...(note.history || []), note.content]`). -/
def applyEdit (now : Nat) (content : String) (note : Note) : Note :=
  { note with
    content := content,
    title := jsTitle content,
    lastModified := now,
    version := some (jsOrNat note.version + 1),
    history := some (note.history.getD [] ++ [note.content]) }

/-- `notes.map(note => note.id === activeNoteId ? {...} : note)`
(App.tsx lines 230-241). -/
def editNotes (aid : String) (now : Nat) (content : String)
    (notes : List Note) : List Note :=
  notes.map (fun note => if note.id == aid then applyEdit now content note else note)

/-- `updateNote(content, addToHistory = true)` (App.tsx lines 224-243).
When `addToHistory` is true it pushes the current (pre-edit) content of
the active note onto the undo stack and clears the redo stack; in every
case it maps the edit over the notes. -/
def updateNote (now : Nat) (content : String) (addToHistory : Bool)
    (s : AppState) : AppState :=
  let s1 := if addToHistory then
      { s with undoStack := s.undoStack ++ [(activeNote s).content],
               redoStack := [] }
    else s
  { s1 with notes := editNotes s.activeNoteId now content s.notes }

/-- `handleUndo` (App.tsx lines 154-165): when the undo stack is
non-empty, pop its top, push the current content of the active note onto
the redo stack, and apply the popped content via
`updateNote(previousContent, false)`. -/
def handleUndo (now : Nat) (s : AppState) : AppState :=
  if 0 < s.undoStack.length then
    let previousContent := s.undoStack.getLastD ""
    let currentContent := (activeNote s).content
    updateNote now previousContent false
      { s with undoStack := s.undoStack.dropLast,
               redoStack := s.redoStack ++ [currentContent] }
  else s

/-- `handleRedo` (App.tsx lines 167-178), symmetric to `handleUndo`. -/
def handleRedo (now : Nat) (s : AppState) : AppState :=
  if 0 < s.redoStack.length then
    let nextContent := s.redoStack.getLastD ""
    let currentContent := (activeNote s).content
    updateNote now nextContent false
      { s with redoStack := s.redoStack.dropLast,
               undoStack := s.undoStack ++ [currentContent] }
  else s

/-- `toggleLock(id)` (App.tsx lines 180-197): rejected when the
candidate-password input is empty (`if (!password) return`); otherwise
flips `isLocked` of the note with that id and sets `password` to the
candidate on lock and to `undefined` on unlock. -/
def toggleLock (id : String) (s : AppState) : AppState :=
  if s.password = "" then s
  else
    { s with notes := s.notes.map (fun note =>
        if note.id == id then
          { note with
            isLocked := !note.isLocked,
            password := if !note.isLocked then some s.password else none }
        else note) }

/-- `toggleArchive(id)` (App.tsx lines 199-207). -/
def toggleArchive (id : String) (s : AppState) : AppState :=
  { s with notes := s.notes.map (fun note =>
      if note.id == id then { note with isArchived := !note.isArchived }
      else note) }

/-- `toggleFavorite(id)` (App.tsx lines 299-305). -/
def toggleFavorite (id : String) (s : AppState) : AppState :=
  { s with notes := s.notes.map (fun note =>
      if note.id == id then { note with favorite := !note.favorite }
      else note) }

/-- `deleteNote(id)` (App.tsx lines 288-297): refused (state unchanged)
when exactly one note remains; otherwise filters the note out and
unconditionally points `activeNoteId` at `updatedNotes[0].id`. -/
def deleteNote (id : String) (s : AppState) : AppState :=
  if s.notes.length = 1 then s
  else
    let updatedNotes := s.notes.filter (fun note => note.id != id)
    { s with notes := updatedNotes,
             activeNoteId := (updatedNotes.headD default).id }

/-- JavaScript substring test on character lists:
`hay.includes(needle)`. -/
def containsSub (needle : List Char) : List Char → Bool
  | [] => needle.isEmpty
  | c :: rest => needle.isPrefixOf (c :: rest) || containsSub needle rest

/-- `hay.includes(sub)` for strings. -/
def jsIncludes (hay sub : String) : Bool :=
  containsSub sub.data hay.data

/-- The filter predicate of `filteredNotes` (App.tsx lines 126-132):
`(titleMatch || contentMatch) && tagMatch`. -/
def notePasses (s : AppState) (note : Note) : Bool :=
  let searchLower := jsToLower s.searchQuery
  let titleMatch := jsIncludes (jsToLower note.title) searchLower
  let contentMatch := jsIncludes (jsToLower note.content) searchLower
  let tagMatch := s.selectedTags.isEmpty
      || s.selectedTags.all (fun tag => note.tags.contains tag)
  (titleMatch || contentMatch) && tagMatch

/-- `parseInt` applied to the ids in the `'created'` sort branch
(App.tsx line 144); a non-numeric id (`NaN`) is modelled as 0 — no
claim exercises this branch. -/
def jsParseInt (st : String) : Int :=
  (st.toInt?).getD 0

/-- The comparator of `filteredNotes.sort` (App.tsx lines 134-150),
parameterised by the host's `localeCompare` for the `'title'` branch.
Returns `comparison` when the direction is `'desc'` and `-comparison`
when it is `'asc'`. -/
def sortCmp (lc : String → String → Int) (opt : SortOption)
    (dir : SortDirection) (a b : Note) : Int :=
  let comparison : Int :=
    match opt with
    | .modified => (b.lastModified : Int) - (a.lastModified : Int)
    | .title => lc a.title b.title
    | .created => jsParseInt a.id - jsParseInt b.id
    | .archived =>
        (if b.isArchived then (1 : Int) else 0)
          - (if a.isArchived then (1 : Int) else 0)
  if dir = SortDirection.desc then comparison else -comparison

/-- Stable insertion into a sorted list: `x` is placed before the first
element not strictly below it. -/
def insertSorted (lt : α → α → Bool) (x : α) : List α → List α
  | [] => [x]
  | y :: l => if lt y x then y :: insertSorted lt x l else x :: y :: l

/-- Stable sort, modelling JavaScript `Array.prototype.sort` with a
comparator (stable per ES2019): element `a` comes before `b` whenever
`cmp a b < 0`, ties keep the original order. -/
def stableSort (lt : α → α → Bool) (l : List α) : List α :=
  l.foldr (insertSorted lt) []

/-- `filteredNotes` (App.tsx lines 125-152): filter by search text and
selected tags, then sort by the active key and direction.  `lc` is the
host's `String.prototype.localeCompare`. -/
def filteredNotes (lc : String → String → Int) (s : AppState) : List Note :=
  stableSort
    (fun a b => decide (sortCmp lc s.sortOption s.sortDirection a b < 0))
    (s.notes.filter (notePasses s))

/-- A model of `String.prototype.localeCompare` under the default
locale for the plain-ASCII strings appearing in this development:
case-insensitive primary comparison (lowercased code points), raw code
points as tie-break. -/
def lexOrd : List Char → List Char → Ordering
  | [], [] => .eq
  | [], _ :: _ => .lt
  | _ :: _, [] => .gt
  | a :: as, b :: bs =>
    match compare a.toNat b.toNat with
    | .eq => lexOrd as bs
    | o => o

/-- See `lexOrd`: `-1`, `0` or `1` in the JavaScript style. -/
def localeCompareModel (a b : String) : Int :=
  match lexOrd (jsToLower a).data (jsToLower b).data with
  | .lt => -1
  | .gt => 1
  | .eq =>
    match lexOrd a.data b.data with
    | .lt => -1
    | .gt => 1
    | .eq => 0

/-- N sequential content edits through the real edit path
(`updateNote(content)` with `addToHistory` defaulted to `true`), each
with its timestamp. -/
def applyEdits (es : List (Nat × String)) (s : AppState) : AppState :=
  es.foldl (fun st e => updateNote e.1 e.2 true st) s

/-- The cumulative per-note effect of a sequence of edits. -/
def editFold (es : List (Nat × String)) (n : Note) : Note :=
  es.foldl (fun m e => applyEdit e.1 e.2 m) n

/-- A sequence of `toggleLock` operations: each step types a candidate
password into the input field and clicks the lock toggle of note `id`
(an op is `(candidate, id)`). -/
def applyToggleSeq (ops : List (String × String)) (s : AppState) : AppState :=
  ops.foldl (fun st op => toggleLock op.2 { st with password := op.1 }) s

/-- Overwrite the lock fields (`isLocked`, `password`) of the note with
the given id, leaving everything else alone.  Used to state that an
operation is insensitive to the lock state of its target. -/
def relock (id : String) (l : Bool) (pw : Option String)
    (notes : List Note) : List Note :=
  notes.map (fun n =>
    if n.id == id then { n with isLocked := l, password := pw } else n)

end Notepad

namespace Notepad

/-- A plain unlocked note with the given id, title and content, with the
creation-time defaults of `createNewNote` (App.tsx lines 245-263):
`version = 1`, `history = []`, no tags, all flags off. -/
def mkNote (i t c : String) : Note :=
  { id := i, title := t, content := c, lastModified := 0, favorite := false,
    tags := [], format := ⟨[false], [false], [false]⟩, isLocked := false,
    password := none, isArchived := false, version := some 1,
    history := some [] }

/-- A base state over the given notes with everything else at its
initial value (`searchQuery = ''`, no selected tags, default sort). -/
def mkState (notes : List Note) (aid : String) : AppState :=
  { notes := notes, activeNoteId := aid, searchQuery := "",
    selectedTags := [], sortOption := .modified, sortDirection := .desc,
    password := "", undoStack := [], redoStack := [] }

/-- A note that has been edited once ("A" → "B"): version 2,
history `["A"]`. -/
def noteB : Note :=
  { mkNote "1" "B" "B" with version := some 2, history := some ["A"] }

/-- A single-note state holding `noteB`, with `"A"` on the undo stack. -/
def stateA : AppState :=
  { mkState [noteB] "1" with undoStack := ["A"] }

/-- C1: the claim says `undo()` replaces the active note's content with
the popped snapshot without changing the note's `version` or `history`,
those being touched only by `edit`.  The code violates this:
`handleUndo` routes through `updateNote`, whose version bump and
history append are unconditional — the `addToHistory = false` argument
only skips the undo-stack push — so undoing the note of `stateA`
(version 2, history `["A"]`) restores content `"A"` but bumps the
version to 3 and appends the pre-undo content `"B"` to the history. -/
theorem undo_bumps_version_and_history :
    (activeNote (handleUndo 7 stateA)).content = "A" ∧
    (activeNote (handleUndo 7 stateA)).version = some 3 ∧
    (activeNote (handleUndo 7 stateA)).history = some ["A", "B"] := by
  decide

/-- Three notes titled `"Banana"`, `"Apple"`, `"cherry"`, sort key
`title`, direction `asc`. -/
def stateTitles : AppState :=
  { mkState [mkNote "1" "Banana" "", mkNote "2" "Apple" "",
             mkNote "3" "cherry" ""] "1" with
    sortOption := .title, sortDirection := .asc }

/-- C2: the claim says title + ascending direction yields
`["Apple", "Banana", "cherry"]`.  The code negates the comparator for
`'asc'` (App.tsx line 150) while the title branch's base comparison
`a.title.localeCompare(b.title)` is already ascending, so the `'asc'`
flag produces descending titles (`["cherry", "Banana", "Apple"]`) and
`'desc'` produces the ascending order the claim expects — inverted
relative to the `'modified'` key, whose base comparison is descending.
The second and third conjuncts record that the locale model indeed
orders `Apple < Banana < cherry`, as the claim assumes. -/
theorem title_asc_sorts_reversed :
    (filteredNotes localeCompareModel stateTitles).map Note.title
        = ["cherry", "Banana", "Apple"] ∧
    localeCompareModel "Apple" "Banana" < 0 ∧
    localeCompareModel "Banana" "cherry" < 0 ∧
    (filteredNotes localeCompareModel
        { stateTitles with sortDirection := SortDirection.desc }).map Note.title
        = ["Apple", "Banana", "cherry"] := by
  decide

/-- Three notes with ids `"1"`, `"2"`, `"3"`; the active note is `"2"`. -/
def stateThree : AppState :=
  mkState [mkNote "1" "a" "", mkNote "2" "b" "", mkNote "3" "c" ""] "2"

/-- C3 counterexample: deleting the non-active note `"3"` while `"2"`
is active moves the active pointer to `"1"` — `deleteNote` reassigns
`activeNoteId` to `updatedNotes[0].id` unconditionally (App.tsx line
295), not only when the deleted note was active. -/
theorem delete_moves_active_off_surviving_note :
    stateThree.activeNoteId = "2" ∧
    ((deleteNote "3" stateThree).notes.map Note.id = ["1", "2"]) ∧
    (deleteNote "3" stateThree).activeNoteId = "1" := by
  decide

/-- C3 amended: after a successful `delete(id)` on a collection with at
least two notes, the active pointer is always reassigned to the first
element of the remaining insertion-order collection, whether or not the
deleted note was the active one. -/
theorem delete_reassigns_active_to_first (s : AppState) (id : String)
    (m : Note) (rest : List Note) (hlen : 2 ≤ s.notes.length)
    (hrem : s.notes.filter (fun n => n.id != id) = m :: rest) :
    (deleteNote id s).notes = m :: rest ∧
    (deleteNote id s).activeNoteId = m.id := by
  have h1 : ¬ s.notes.length = 1 := by omega
  simp [deleteNote, h1, hrem]

/-- C3 amended, witnessed on `stateThree`. -/
theorem delete_reassigns_active_to_first_witness :
    (deleteNote "3" stateThree).notes = [mkNote "1" "a" "", mkNote "2" "b" ""] ∧
    (deleteNote "3" stateThree).activeNoteId = (mkNote "1" "a" "").id :=
  delete_reassigns_active_to_first stateThree "3" (mkNote "1" "a" "")
    [mkNote "2" "b" ""] (by decide) (by decide)

/-- C4: on a collection with at least two notes, `delete(id)` keeps
exactly the notes whose id differs from `id`, unchanged (in particular
a note is in the result iff it was present and its id is not the
deleted one); on a one-note collection the deletion is refused and the
state is unchanged. -/
theorem deleteNote_removes_exactly (s : AppState) (id : String) :
    (s.notes.length = 1 → deleteNote id s = s) ∧
    (2 ≤ s.notes.length →
      (deleteNote id s).notes = s.notes.filter (fun n => n.id != id) ∧
      ∀ n : Note, n ∈ (deleteNote id s).notes ↔ n ∈ s.notes ∧ n.id ≠ id) := by
  refine ⟨fun h => by simp [deleteNote, h], fun h => ?_⟩
  have h1 : ¬ s.notes.length = 1 := by omega
  refine ⟨by simp [deleteNote, h1], fun n => ?_⟩
  simp [deleteNote, h1, List.mem_filter]

/-- C4, witnessed: rejection on a one-note collection and exact removal
on `stateThree`. -/
theorem deleteNote_removes_exactly_witness :
    (deleteNote "1" (mkState [mkNote "1" "a" ""] "1")
        = mkState [mkNote "1" "a" ""] "1") ∧
    (deleteNote "2" stateThree).notes
        = stateThree.notes.filter (fun n => n.id != "2") ∧
    (mkNote "1" "a" "" ∈ (deleteNote "2" stateThree).notes ↔
      mkNote "1" "a" "" ∈ stateThree.notes ∧ (mkNote "1" "a" "").id ≠ "2") :=
  ⟨(deleteNote_removes_exactly (mkState [mkNote "1" "a" ""] "1") "1").1 (by decide),
   ((deleteNote_removes_exactly stateThree "2").2 (by decide)).1,
   ((deleteNote_removes_exactly stateThree "2").2 (by decide)).2 _⟩

/-- C9: unlocking never verifies the candidate against the stored
plaintext: for any locked note (arbitrary stored `password`) and any
non-empty candidate in the password field, `toggleLock` sets
`isLocked := false` and clears `password`. -/
theorem unlock_ignores_stored_password (s : AppState) (id : String)
    (i : Nat) (n : Note) (hp : s.password ≠ "")
    (hi : s.notes[i]? = some n) (hid : n.id = id) (hl : n.isLocked = true) :
    (toggleLock id s).notes[i]? =
      some { n with isLocked := false, password := none } := by
  simp [toggleLock, hp, List.getElem?_map, hi, hid, hl]

/-- A note locked with stored password `"secret"`. -/
def lockedNote : Note :=
  { mkNote "1" "t" "c" with isLocked := true, password := some "secret" }

/-- A state holding `lockedNote` while the candidate password field
holds the non-matching `"other"`. -/
def stateLocked : AppState :=
  { mkState [lockedNote] "1" with password := "other" }

/-- C9, witnessed: the candidate `"other"` does not match the stored
`"secret"`, yet the note is unlocked and its password cleared. -/
theorem unlock_ignores_stored_password_witness :
    (toggleLock "1" stateLocked).notes[0]? =
      some { lockedNote with isLocked := false, password := none } :=
  unlock_ignores_stored_password stateLocked "1" 0 lockedNote
    (by decide) (by decide) rfl rfl

end Notepad

namespace Notepad

lemma toggleLock_inv_step (s : AppState) (id : String)
    (h : ∀ n ∈ s.notes, n.password.isSome = n.isLocked) :
    ∀ n ∈ (toggleLock id s).notes, n.password.isSome = n.isLocked := by
  intro n hn
  by_cases hp : s.password = ""
  · rw [toggleLock, if_pos hp] at hn
    exact h n hn
  · rw [toggleLock, if_neg hp] at hn
    simp only [List.mem_map] at hn
    obtain ⟨m, hm, hEq⟩ := hn
    subst hEq
    by_cases hid : (m.id == id) = true
    · cases hml : m.isLocked <;> simp [hid, hml]
    · simp only [hid, if_neg, Bool.false_eq_true, if_false]
      exact h m hm

/-- C5: starting from any state whose notes satisfy the lock invariant
(`password` is defined iff `isLocked`), the invariant holds after every
step of any sequence of `toggleLock` operations with arbitrary candidate
passwords (an op is a candidate typed into the password field followed
by a lock toggle on some note id); moreover `toggleLock` with an empty
candidate is rejected and leaves the state — in particular `isLocked`
and `password` of every note — unchanged. -/
theorem toggleLock_password_invariant (s : AppState)
    (ops : List (String × String)) (id : String)
    (h : ∀ n ∈ s.notes, n.password.isSome = n.isLocked) :
    (∀ n ∈ (applyToggleSeq ops s).notes, n.password.isSome = n.isLocked) ∧
    (s.password = "" → toggleLock id s = s) := by
  refine ⟨?_, fun hp => by rw [toggleLock, if_pos hp]⟩
  induction ops generalizing s with
  | nil => simpa [applyToggleSeq] using h
  | cons op rest ih =>
    rw [show applyToggleSeq (op :: rest) s
        = applyToggleSeq rest (toggleLock op.2 { s with password := op.1 }) from rfl]
    exact ih _ (toggleLock_inv_step { s with password := op.1 } op.2 h)

/-- C5, witnessed on `stateThree` (all notes unlocked with no
password): lock note `"1"` with `"pw"`, then unlock it with candidate
`"x"`; the invariant holds at the end, and an empty-candidate toggle is
the identity. -/
theorem toggleLock_password_invariant_witness :
    (∀ n ∈ (applyToggleSeq [("pw", "1"), ("x", "1")] stateThree).notes,
        n.password.isSome = n.isLocked) ∧
    toggleLock "1" stateThree = stateThree :=
  ⟨(toggleLock_password_invariant stateThree [("pw", "1"), ("x", "1")] "1"
      (by decide)).1,
   (toggleLock_password_invariant stateThree [("pw", "1"), ("x", "1")] "1"
      (by decide)).2 rfl⟩

lemma relock_keeps_id (id : String) (l : Bool) (pw : Option String)
    (n : Note) :
    (if n.id == id then { n with isLocked := l, password := pw } else n).id
      = n.id := by
  by_cases h : (n.id == id) = true <;> simp [h]

lemma relock_filter_ne (id : String) (l : Bool) (pw : Option String)
    (notes : List Note) :
    (relock id l pw notes).filter (fun n => n.id != id)
      = notes.filter (fun n => n.id != id) := by
  rw [relock, List.filter_map]
  have h1 : ((fun n : Note => n.id != id) ∘ (fun n : Note =>
      if n.id == id then { n with isLocked := l, password := pw } else n))
      = fun n : Note => n.id != id := by
    funext n
    simp only [Function.comp_apply, bne, relock_keeps_id]
  rw [h1]
  have h2 : ∀ n ∈ notes.filter (fun n : Note => n.id != id),
      (if n.id == id then { n with isLocked := l, password := pw } else n)
        = n := by
    intro n hn
    have hmem := (List.mem_filter.mp hn).2
    have hne : (n.id == id) = false := by
      simpa [bne] using hmem
    rw [if_neg (by simp [hne])]
  rw [List.map_congr_left h2]
  simp

lemma relock_length (id : String) (l : Bool) (pw : Option String)
    (notes : List Note) : (relock id l pw notes).length = notes.length := by
  simp [relock]

/-- C10: the lock gate restricts only selecting/editing a locked note;
`deleteNote` (when another note exists), `toggleArchive` and
`toggleFavorite` ignore the target's lock state entirely — overwriting
the target's `isLocked`/`password` fields commutes with each operation
(for delete, the result is identical since the relocked note is the one
removed) — and none of them reads the candidate password field. -/
theorem lock_gate_only_gates_selection (s : AppState) (id : String)
    (l : Bool) (pw : Option String) :
    ((toggleArchive id { s with notes := relock id l pw s.notes }).notes
        = relock id l pw (toggleArchive id s).notes) ∧
    ((toggleFavorite id { s with notes := relock id l pw s.notes }).notes
        = relock id l pw (toggleFavorite id s).notes) ∧
    (2 ≤ s.notes.length →
      deleteNote id { s with notes := relock id l pw s.notes }
        = deleteNote id s) ∧
    (∀ q : String, (toggleArchive id { s with password := q }).notes
        = (toggleArchive id s).notes) ∧
    (∀ q : String, (toggleFavorite id { s with password := q }).notes
        = (toggleFavorite id s).notes) ∧
    (∀ q : String, (deleteNote id { s with password := q }).notes
        = (deleteNote id s).notes) := by
  obtain ⟨ns, aid, sq, stg, so, sd, spw, us, rs⟩ := s
  refine ⟨?_, ?_, ?_, fun q => rfl, fun q => rfl, fun q => ?_⟩
  · simp only [toggleArchive, relock, List.map_map]
    apply List.map_congr_left
    intro n _
    by_cases h : (n.id == id) = true <;> simp [Function.comp, h]
  · simp only [toggleFavorite, relock, List.map_map]
    apply List.map_congr_left
    intro n _
    by_cases h : (n.id == id) = true <;> simp [Function.comp, h]
  · intro h2
    have h2' : 2 ≤ ns.length := h2
    have h1 : ¬ (relock id l pw ns).length = 1 := by
      rw [relock_length]; omega
    have h1' : ¬ ns.length = 1 := by omega
    simp [deleteNote, h1, h1', relock_filter_ne]
  · by_cases hl : ns.length = 1 <;> simp [deleteNote, hl]

/-- C10, witnessed on `stateThree` with note `"1"` forced into a locked
state with stored password `"pw"`. -/
theorem lock_gate_only_gates_selection_witness :
    ((toggleArchive "1"
        { stateThree with notes := relock "1" true (some "pw") stateThree.notes }).notes
      = relock "1" true (some "pw") (toggleArchive "1" stateThree).notes) ∧
    deleteNote "1"
        { stateThree with notes := relock "1" true (some "pw") stateThree.notes }
      = deleteNote "1" stateThree :=
  ⟨(lock_gate_only_gates_selection stateThree "1" true (some "pw")).1,
   (lock_gate_only_gates_selection stateThree "1" true (some "pw")).2.2.1
      (by decide)⟩

end Notepad

namespace Notepad

lemma applyEdit_keeps_id (t : Nat) (c : String) (n : Note) :
    (applyEdit t c n).id = n.id := rfl

lemma applyEdit_content (t : Nat) (c : String) (n : Note) :
    (applyEdit t c n).content = c := rfl

lemma find?_editNotes (notes : List Note) (aid : String) (t : Nat)
    (c : String) :
    (editNotes aid t c notes).find? (fun n => n.id == aid)
      = (notes.find? (fun n => n.id == aid)).map (applyEdit t c) := by
  induction notes with
  | nil => rfl
  | cons n ns ih =>
    have hcons : editNotes aid t c (n :: ns)
        = (if (n.id == aid) = true then applyEdit t c n else n)
            :: editNotes aid t c ns := rfl
    by_cases h : (n.id == aid) = true
    · rw [hcons, if_pos h]
      rw [@List.find?_cons_of_pos _ (fun m => m.id == aid) (applyEdit t c n)
          (editNotes aid t c ns) h]
      rw [@List.find?_cons_of_pos _ (fun m => m.id == aid) n ns h]
      rfl
    · rw [hcons, if_neg h]
      rw [@List.find?_cons_of_neg _ (fun m => m.id == aid) n
          (editNotes aid t c ns) h]
      rw [@List.find?_cons_of_neg _ (fun m => m.id == aid) n ns h]
      exact ih

lemma editNotes_of_find?_none (notes : List Note) (aid : String) (t : Nat)
    (c : String) (h : notes.find? (fun n => n.id == aid) = none) :
    editNotes aid t c notes = notes := by
  rw [editNotes]
  have h2 : ∀ n ∈ notes,
      (if n.id == aid then applyEdit t c n else n) = n := by
    intro n hn
    have := List.find?_eq_none.mp h n hn
    rw [if_neg this]
  rw [List.map_congr_left h2]
  simp

lemma activeNoteOf_editNotes_content (notes : List Note) (aid : String)
    (t : Nat) (c : String) :
    (activeNoteOf (editNotes aid t c notes) aid).content
      = if (notes.find? (fun n => n.id == aid)).isSome then c
        else (activeNoteOf notes aid).content := by
  cases h : notes.find? (fun n => n.id == aid) with
  | some n =>
    rw [activeNoteOf, find?_editNotes, h]
    simp [applyEdit_content]
  | none =>
    rw [editNotes_of_find?_none notes aid t c h]
    simp [h]

lemma find?_isSome_editNotes (notes : List Note) (aid : String) (t : Nat)
    (c : String) :
    ((editNotes aid t c notes).find? (fun n => n.id == aid)).isSome
      = (notes.find? (fun n => n.id == aid)).isSome := by
  rw [find?_editNotes]
  cases notes.find? (fun n => n.id == aid) <;> rfl

/-- C6: undo immediately followed by redo restores the active note's
content exactly as it was before the undo (the popped undo snapshot is
applied, the pre-undo content is parked on the redo stack and comes
straight back); symmetrically redo followed by undo restores the
pre-redo content.  Timestamps are arbitrary. -/
theorem undo_redo_restores_content (s : AppState) (t1 t2 : Nat) :
    (0 < s.undoStack.length →
      (activeNote (handleRedo t2 (handleUndo t1 s))).content
        = (activeNote s).content) ∧
    (0 < s.redoStack.length →
      (activeNote (handleUndo t2 (handleRedo t1 s))).content
        = (activeNote s).content) := by
  obtain ⟨ns, aid, sq, stg, so, sd, pw, us, rs⟩ := s
  constructor
  · intro h
    rw [handleUndo]
    rw [if_pos h]
    simp only [updateNote, Bool.false_eq_true, if_false]
    rw [handleRedo]
    rw [if_pos (by simp)]
    simp only [updateNote, Bool.false_eq_true, if_false, activeNote]
    rw [List.getLastD_concat]
    rw [activeNoteOf_editNotes_content, find?_isSome_editNotes,
      activeNoteOf_editNotes_content]
    by_cases hf : ((ns.find? (fun n => n.id == aid)).isSome = true) <;>
      simp [hf]
  · intro h
    rw [handleRedo]
    rw [if_pos h]
    simp only [updateNote, Bool.false_eq_true, if_false]
    rw [handleUndo]
    rw [if_pos (by simp)]
    simp only [updateNote, Bool.false_eq_true, if_false, activeNote]
    rw [List.getLastD_concat]
    rw [activeNoteOf_editNotes_content, find?_isSome_editNotes,
      activeNoteOf_editNotes_content]
    by_cases hf : ((ns.find? (fun n => n.id == aid)).isSome = true) <;>
      simp [hf]

/-- A single-note state holding `noteB`, with `"C"` on the redo stack. -/
def stateR : AppState :=
  { mkState [noteB] "1" with redoStack := ["C"] }

/-- C6, witnessed on `stateA` (non-empty undo stack) and `stateR`
(non-empty redo stack). -/
theorem undo_redo_restores_content_witness :
    (activeNote (handleRedo 9 (handleUndo 7 stateA))).content
        = (activeNote stateA).content ∧
    (activeNote (handleUndo 9 (handleRedo 7 stateR))).content
        = (activeNote stateR).content :=
  ⟨(undo_redo_restores_content stateA 7 9).1 (by decide),
   (undo_redo_restores_content stateR 7 9).2 (by decide)⟩

end Notepad

namespace Notepad

lemma editFold_version_history (es : List (Nat × String)) (n : Note)
    (v : Nat) (hs : List String) (hv : n.version = some v) (h0 : 0 < v)
    (hh : n.history = some hs) :
    (editFold es n).version = some (v + es.length) ∧
    (editFold es n).history
      = some (hs ++ (n.content :: es.map Prod.snd).take es.length) := by
  induction es generalizing n v hs with
  | nil => simp [editFold, hv, hh]
  | cons e rest ih =>
    have h1 : (applyEdit e.1 e.2 n).version = some (v + 1) := by
      simp only [applyEdit, hv, jsOrNat]
      rw [if_neg (by omega)]
    have h2 : (applyEdit e.1 e.2 n).history = some (hs ++ [n.content]) := by
      simp [applyEdit, hh]
    have h3 := ih (applyEdit e.1 e.2 n) (v + 1) (hs ++ [n.content]) h1
      (by omega) h2
    rw [show editFold (e :: rest) n = editFold rest (applyEdit e.1 e.2 n)
        from rfl]
    obtain ⟨hv', hh'⟩ := h3
    refine ⟨by rw [hv']; simp only [Option.some.injEq, List.length_cons]; omega, ?_⟩
    rw [hh', applyEdit_content]
    simp [List.take_succ_cons, List.append_assoc]

lemma updateNote_activeNoteId (e : Nat × String) (b : Bool) (s : AppState) :
    (updateNote e.1 e.2 b s).activeNoteId = s.activeNoteId := by
  cases b <;> rfl

lemma applyEdits_activeNoteId (es : List (Nat × String)) (s : AppState) :
    (applyEdits es s).activeNoteId = s.activeNoteId := by
  induction es generalizing s with
  | nil => rfl
  | cons e rest ih =>
    rw [show applyEdits (e :: rest) s
        = applyEdits rest (updateNote e.1 e.2 true s) from rfl, ih,
      updateNote_activeNoteId]

lemma updateNote_notes (e : Nat × String) (b : Bool) (s : AppState) :
    (updateNote e.1 e.2 b s).notes
      = editNotes s.activeNoteId e.1 e.2 s.notes := by
  cases b <;> rfl

lemma applyEdits_find? (es : List (Nat × String)) (s : AppState) (n : Note)
    (hf : s.notes.find? (fun m => m.id == s.activeNoteId) = some n) :
    (applyEdits es s).notes.find? (fun m => m.id == s.activeNoteId)
      = some (editFold es n) := by
  induction es generalizing s n with
  | nil => simpa [applyEdits, editFold] using hf
  | cons e rest ih =>
    have haid := updateNote_activeNoteId e true s
    have hstep : (updateNote e.1 e.2 true s).notes.find?
        (fun m => m.id == (updateNote e.1 e.2 true s).activeNoteId)
        = some (applyEdit e.1 e.2 n) := by
      rw [haid, updateNote_notes, find?_editNotes, hf]
      rfl
    have hrec := ih (updateNote e.1 e.2 true s) (applyEdit e.1 e.2 n) hstep
    rw [haid] at hrec
    exact hrec

/-- C7: starting from a note freshly created (empty `history`, positive
`version` — creation sets `version = 1`), after a sequence of N edits
through the real edit path (the active note is the edited one), the
active note's `version` is the initial version plus N and its `history`
has exactly N entries, the i-th being the content in place before the
i-th edit (the initial content followed by the first N-1 new
contents). -/
theorem edits_bump_version_and_log_history (s : AppState)
    (es : List (Nat × String)) (n : Note) (v : Nat)
    (hf : s.notes.find? (fun m => m.id == s.activeNoteId) = some n)
    (hv : n.version = some v) (h0 : 0 < v) (hh : n.history = some []) :
    (activeNote (applyEdits es s)).version = some (v + es.length) ∧
    (activeNote (applyEdits es s)).history
      = some ((n.content :: es.map Prod.snd).take es.length) := by
  have hfind := applyEdits_find? es s n hf
  have haid := applyEdits_activeNoteId es s
  have hspec := editFold_version_history es n v [] hv h0 hh
  rw [activeNote, activeNoteOf, haid, hfind]
  simpa using hspec

/-- C7, witnessed on `stateThree` (active note `"2"`, content `""`,
version 1, empty history) with the two edits `"x"` then `"y"`:
version 3, history `["", "x"]`. -/
theorem edits_bump_version_and_log_history_witness :
    (activeNote (applyEdits [(1, "x"), (2, "y")] stateThree)).version
        = some 3 ∧
    (activeNote (applyEdits [(1, "x"), (2, "y")] stateThree)).history
        = some ["", "x"] := by
  have h := edits_bump_version_and_log_history stateThree
    [(1, "x"), (2, "y")] (mkNote "2" "b" "") 1 (by decide) rfl
    (by decide) rfl
  exact ⟨h.1, h.2⟩

lemma mem_insertSorted {α : Type} (lt : α → α → Bool) (x a : α)
    (l : List α) : a ∈ insertSorted lt x l ↔ a = x ∨ a ∈ l := by
  induction l with
  | nil => simp [insertSorted]
  | cons y ys ih =>
    by_cases h : lt y x = true
    · rw [show insertSorted lt x (y :: ys) = y :: insertSorted lt x ys
          from by simp [insertSorted, h]]
      simp [ih]
      tauto
    · rw [show insertSorted lt x (y :: ys) = x :: y :: ys
          from by simp [insertSorted, h]]
      simp

lemma mem_stableSort {α : Type} (lt : α → α → Bool) (l : List α) (a : α) :
    a ∈ stableSort lt l ↔ a ∈ l := by
  induction l with
  | nil => simp [stableSort]
  | cons y ys ih =>
    rw [show stableSort lt (y :: ys) = insertSorted lt y (stableSort lt ys)
        from rfl, mem_insertSorted]
    simp [ih]

/-- C8: a note is in the filtered view iff it is in the collection and
(its lowercased title or its lowercased content contains the lowercased
search text) and (no tag is selected, or every selected tag occurs in
the note's tags — AND semantics, so with selected tags {A, B} only
notes carrying both pass).  Sorting (any locale comparator) only
reorders the filtered notes. -/
theorem filteredNotes_membership (lc : String → String → Int)
    (s : AppState) (n : Note) :
    n ∈ filteredNotes lc s ↔
      n ∈ s.notes ∧
      (jsIncludes (jsToLower n.title) (jsToLower s.searchQuery) = true ∨
        jsIncludes (jsToLower n.content) (jsToLower s.searchQuery) = true) ∧
      (s.selectedTags = [] ∨ ∀ tag ∈ s.selectedTags, tag ∈ n.tags) := by
  rw [filteredNotes, mem_stableSort, List.mem_filter]
  have hcont : ∀ tag : String, (n.tags.contains tag = true) ↔ tag ∈ n.tags := by
    intro tag
    rw [List.contains]
    exact List.elem_iff
  simp only [notePasses, Bool.and_eq_true, Bool.or_eq_true,
    List.isEmpty_iff, List.all_eq_true, hcont]

end Notepad
